import Mathlib

/-!
Shallow embedding of the two notebooks in this repository.

The first notebook queries the IBM Q provider for operational backends and
prints a fixed-width status table.  The second demonstrates unitary
evolution (the bit-flip matrix `X`, norm preservation, a two-gate circuit),
density-matrix mixing (`mixed_state`) and the Boltzmann distribution.

Numpy float arithmetic is modelled by real (and complex) numbers; numpy
integer arrays by `ℤ`.  Column vectors are `Matrix (Fin n) (Fin 1)`
matrices, matching the `np.array([[.],[.]])` shape used in the notebook.
-/

open scoped ComplexOrder
open Filter

noncomputable section

/-- `X = np.array([[0, 1], [1, 0]])` — the bit-flip matrix, integer entries. -/
def X : Matrix (Fin 2) (Fin 2) ℤ := !![0, 1; 1, 0]

/-- `zero_ket = np.array([[1], [0]])` — the |0⟩ basis column vector. -/
def zero_ket : Matrix (Fin 2) (Fin 1) ℤ := !![1; 0]

/-- `np.linalg.norm` on a 2×1 integer array: the Euclidean (Frobenius) norm,
returned as a float, modelled as a real number. -/
def euclideanNorm (v : Matrix (Fin 2) (Fin 1) ℤ) : ℝ :=
  Real.sqrt (∑ i, ∑ j, ((v i j : ℝ)) ^ 2)

/-- The matrix applied by `circuit.x(q[0])` in the statevector simulator. -/
def xGate : Matrix (Fin 2) (Fin 2) ℂ := !![0, 1; 1, 0]

/-- The initial statevector |0⟩ of a fresh one-qubit register. -/
def zeroState : Matrix (Fin 2) (Fin 1) ℂ := !![1; 0]

/-- The gate list of the circuit built in the notebook:
`circuit.x(q[0]); circuit.x(q[0])`. -/
def circuitGates : List (Matrix (Fin 2) (Fin 2) ℂ) := [xGate, xGate]

/-- The exact statevector simulator: apply each gate to the state in order. -/
def runStatevector (gates : List (Matrix (Fin 2) (Fin 2) ℂ))
    (init : Matrix (Fin 2) (Fin 1) ℂ) : Matrix (Fin 2) (Fin 1) ℂ :=
  gates.foldl (fun s g => g * s) init

/-- `maximally_mixed_state = np.eye(4)/2**2` (entrywise division by the
scalar `2**2`, i.e. scaling by its inverse). -/
def maximallyMixedState : Matrix (Fin 4) (Fin 4) ℂ :=
  ((2 : ℂ) ^ 2)⁻¹ • 1

/-- ```
def mixed_state(pure_state, visibility):
    density_matrix = pure_state.dot(pure_state.T.conj())
    maximally_mixed_state = np.eye(4)/2**2
    return visibility*density_matrix + (1-visibility)*maximally_mixed_state
```
The visibility is a Python float, modelled as a real scalar acting on the
complex 4×4 matrices. -/
def mixed_state (pure_state : Matrix (Fin 4) (Fin 1) ℂ) (visibility : ℝ) :
    Matrix (Fin 4) (Fin 4) ℂ :=
  visibility • (pure_state * pure_state.conjTranspose) +
    (1 - visibility) • maximallyMixedState

/-- `ϕ = np.array([[1],[0],[0],[1]])/np.sqrt(2)` — the fixed entangled pure
state (entrywise division by √2, i.e. scaling by its inverse). -/
def phi : Matrix (Fin 4) (Fin 1) ℂ :=
  ((Real.sqrt 2 : ℂ))⁻¹ • !![1; 0; 0; 1]

/-- The spec's formula for the mixed state, `v · (ψψᴴ) + (1−v) · I/4`,
written from the spec's words, to be compared with `mixed_state`. -/
def mixedStateSpec (psi : Matrix (Fin 4) (Fin 1) ℂ) (v : ℝ) :
    Matrix (Fin 4) (Fin 4) ℂ :=
  v • (psi * psi.conjTranspose) + (1 - v) • ((4 : ℂ)⁻¹ • 1)

/-- `temperatures = [.5, 5, 2000]`. -/
def temperatures : List ℝ := [0.5, 5, 2000]

/-- `energies = np.linspace(0, 20, 100)`: the 100-point energy grid from 0
to 20 inclusive, with step `20/99`. -/
def energies (j : Fin 100) : ℝ := 20 * (j : ℝ) / 99

/-- `probabilities = np.exp(-energies/T); Z = probabilities.sum();
probabilities /= Z` — the normalized Boltzmann weight of grid point `j`. -/
def probabilities (T : ℝ) (j : Fin 100) : ℝ :=
  Real.exp (-(energies j) / T) / ∑ k, Real.exp (-(energies k) / T)

end

/-- A backend descriptor: the three fields the status table reads from the
provider (`name()`, `configuration().n_qubits`, `status().pending_jobs`). -/
structure Backend where
  name : String
  n_qubits : Nat
  pending_jobs : Nat

/-- Left-justified padding to a minimum field width, as Python's
format specifications `0:20` and `1:<10` do for the printed fields
(no truncation when the text is longer than the width). -/
def padRight (s : String) (w : Nat) : String :=
  s ++ String.mk (List.replicate (w - s.length) ' ')

/-- First header row, `"Name", "#Qubits", "Pending jobs"` in the
fixed-width format (this format string ends with one extra space). -/
def headerLine1 : String :=
  padRight "Name" 20 ++ " " ++ padRight "#Qubits" 10 ++ " " ++
    padRight "Pending jobs" 10 ++ " "

/-- Second header row, the `+` underlines in the same format. -/
def headerLine2 : String :=
  padRight "++++" 20 ++ " " ++ padRight "+++++++" 10 ++ " " ++
    padRight "++++++++++++" 10 ++ " "

/-- One table row: name, qubit count and pending jobs in the fixed-width
format (no trailing extra space in this format string). -/
def backendLine (b : Backend) : String :=
  padRight b.name 20 ++ " " ++ padRight (toString b.n_qubits) 10 ++ " " ++
    padRight (toString b.pending_jobs) 10

/-- Modelled from the spec: the external provider's `get_backend`, which is
not part of this repository.  It resolves a backend name (the loop passes
`str(available_backends[n])`, the backend's name) to the listed backend
carrying that name; an unknown name raises, modelled by `none`. -/
def getBackend (bs : List Backend) (nm : String) : Option Backend :=
  bs.find? (fun b => b.name == nm)

/-- The status-reporter cell: print the two header rows, then loop over the
listing `available_backends` in order, re-fetching each backend by name and
printing its row.  The produced lines are collected; a failed lookup
(impossible for a well-formed listing) makes the whole report `none`. -/
def statusReport (bs : List Backend) : Option (List String) :=
  (bs.mapM (fun b => (getBackend bs b.name).map backendLine)).map
    (fun rows => headerLine1 :: headerLine2 :: rows)

/-- The five operational backends shown in the notebook's recorded output,
used as a concrete listing. -/
def sampleBackends : List Backend :=
  [⟨"ibmq_qasm_simulator", 32, 0⟩, ⟨"ibmqx2", 5, 81⟩,
   ⟨"ibmq_16_melbourne", 14, 2⟩, ⟨"ibmq_vigo", 5, 2⟩, ⟨"ibmq_ourense", 5, 2⟩]

/-! ### Helper lemmas -/

lemma posSemidef_real_smul {M : Matrix (Fin 4) (Fin 4) ℂ} (hM : M.PosSemidef)
    {r : ℝ} (hr : 0 ≤ r) : (r • M).PosSemidef := by
  constructor
  · show (r • M).conjTranspose = r • M
    rw [Matrix.conjTranspose_smul]
    simp [hM.1.eq]
  · intro x
    rw [Matrix.smul_mulVec_assoc, Matrix.dotProduct_smul, Complex.real_smul]
    exact mul_nonneg (Complex.zero_le_real.mpr hr) (hM.2 x)

lemma maximallyMixedState_real_smul :
    maximallyMixedState = ((4 : ℝ)⁻¹) • (1 : Matrix (Fin 4) (Fin 4) ℂ) := by
  rw [maximallyMixedState]
  ext i j
  simp [Complex.real_smul]
  norm_num

lemma phi_unit : phi.conjTranspose * phi = 1 := by
  ext i j
  fin_cases i
  fin_cases j
  simp [phi, Matrix.mul_apply, Fin.sum_univ_four, Matrix.conjTranspose_apply,
    Matrix.smul_apply, Matrix.one_apply]
  field_simp
  rw [← Complex.ofReal_mul, Real.mul_self_sqrt (by norm_num : (0:ℝ) ≤ 2)]
  norm_num

lemma boltzmannZ_pos (T : ℝ) : 0 < ∑ k, Real.exp (-(energies k) / T) :=
  Finset.sum_pos (fun _ _ => Real.exp_pos _) Finset.univ_nonempty

lemma sum_probabilities (T : ℝ) : ∑ j, probabilities T j = 1 := by
  simp only [probabilities]
  rw [← Finset.sum_div]
  exact div_self (ne_of_gt (boltzmannZ_pos T))

lemma exp_term_tendsto (j : Fin 100) :
    Tendsto (fun T : ℝ => Real.exp (-(energies j) / T)) atTop (nhds 1) := by
  have h1 : Tendsto (fun T : ℝ => -(energies j) / T) atTop (nhds 0) :=
    tendsto_const_nhds.div_atTop tendsto_id
  have h2 := (Real.continuous_exp.tendsto 0).comp h1
  rwa [Real.exp_zero] at h2

lemma probabilities_tendsto_uniform (j : Fin 100) :
    Tendsto (fun T => probabilities T j) atTop (nhds ((100 : ℝ)⁻¹)) := by
  have hden : Tendsto (fun T : ℝ => ∑ k, Real.exp (-(energies k) / T)) atTop
      (nhds (100 : ℝ)) := by
    have h := tendsto_finset_sum (Finset.univ : Finset (Fin 100))
      (fun k _ => exp_term_tendsto k)
    simpa using h
  have h := (exp_term_tendsto j).div hden (by norm_num)
  simpa [probabilities] using h

lemma find_name_nodup (bs : List Backend) (h : (bs.map Backend.name).Nodup) :
    ∀ b ∈ bs, getBackend bs b.name = some b := by
  induction bs with
  | nil => simp
  | cons a t ih =>
    intro b hb
    rw [List.map_cons, List.nodup_cons] at h
    rcases List.mem_cons.mp hb with rfl | hb2
    · simp [getBackend, List.find?]
    · have hne : (a.name == b.name) = false :=
        beq_eq_false_iff_ne.mpr fun he => h.1 (he ▸ List.mem_map_of_mem Backend.name hb2)
      simp only [getBackend, List.find?_cons, hne]
      exact ih h.2 b hb2

lemma mapM_option_eq_map {α β : Type} (f : α → Option β) (g : α → β) :
    ∀ l : List α, (∀ x ∈ l, f x = some (g x)) → l.mapM f = some (l.map g) := by
  intro l
  induction l with
  | nil => intro _; rfl
  | cons a t ih =>
    intro h
    rw [List.mapM_cons, h a (List.mem_cons_self a t),
      ih (fun x hx => h x (List.mem_cons_of_mem a hx))]
    rfl

/-! ### Claims -/

/-- C1: `mixed_state`, applied to a pure-state column vector `psi` and a
scalar visibility `v`, returns exactly `v · (ψψᴴ) + (1−v) · I/4`, for every
4-dimensional input vector and every scalar. -/
theorem mixed_state_eq_spec_formula (psi : Matrix (Fin 4) (Fin 1) ℂ) (v : ℝ) :
    mixed_state psi v = mixedStateSpec psi v := by
  rw [mixed_state, mixedStateSpec, maximallyMixedState]
  norm_num

/-- C2: for every scalar `v`, if the input pure state is a unit vector
(`ψᴴψ = 1`), the matrix returned by `mixed_state` has trace exactly 1 and
equals its own conjugate transpose. -/
theorem mixed_state_trace_one_hermitian (psi : Matrix (Fin 4) (Fin 1) ℂ)
    (v : ℝ) (h : psi.conjTranspose * psi = 1) :
    (mixed_state psi v).trace = 1 ∧
      (mixed_state psi v).conjTranspose = mixed_state psi v := by
  constructor
  · rw [mixed_state, maximallyMixedState]
    rw [Matrix.trace_add, Matrix.trace_smul, Matrix.trace_smul, Matrix.trace_smul,
      Matrix.trace_mul_comm, h, Matrix.trace_one, Matrix.trace_one]
    simp [Complex.real_smul]
    ring
  · rw [mixed_state, maximallyMixedState]
    simp [Matrix.conjTranspose_smul, Matrix.conjTranspose_mul]

/-- Witness for C2: the notebook's entangled state `ϕ` is a unit vector,
and `mixed_state ϕ 0.8` has trace 1 and is Hermitian. -/
theorem mixed_state_trace_one_hermitian_witness :
    phi.conjTranspose * phi = 1 ∧
      ((mixed_state phi 0.8).trace = 1 ∧
        (mixed_state phi 0.8).conjTranspose = mixed_state phi 0.8) :=
  ⟨phi_unit, mixed_state_trace_one_hermitian phi 0.8 phi_unit⟩

/-- C3: the fixed 2×2 bit-flip matrix `X` satisfies `X·Xᴴ = Xᴴ·X = 1`
exactly, with integer entries. -/
theorem X_unitary : X * X.conjTranspose = 1 ∧ X.conjTranspose * X = 1 := by
  constructor <;> decide

/-- C4: the two-gate circuit applies the bit-flip operator twice to |0⟩ on
the exact statevector simulator and returns |0⟩ again; the two applications
compose to the identity. -/
theorem double_x_circuit_identity :
    runStatevector circuitGates zeroState = zeroState ∧ xGate * xGate = 1 := by
  constructor
  · simp [runStatevector, circuitGates, zeroState, xGate]
  · ext i j
    fin_cases i <;> fin_cases j <;>
      simp [xGate, Matrix.mul_apply, Fin.sum_univ_two, Matrix.one_apply]

/-- C5: with visibility 1.0 and the entangled state `ϕ`, `mixed_state`
returns exactly the pure-state density matrix `ϕϕᴴ`, with no identity
admixture. -/
theorem mixed_state_pure_at_full_visibility :
    mixed_state phi 1 = phi * phi.conjTranspose := by
  rw [mixed_state]
  norm_num

/-- C6: with visibility 0.0, `mixed_state` returns exactly `I/4`,
independent of the supplied pure state. -/
theorem mixed_state_maximally_mixed_at_zero (psi : Matrix (Fin 4) (Fin 1) ℂ) :
    mixed_state psi 0 = (4 : ℂ)⁻¹ • (1 : Matrix (Fin 4) (Fin 4) ℂ) := by
  rw [mixed_state, maximallyMixedState]
  norm_num

/-- C7: the Euclidean norm of the basis vector `[1,0]ᵗ` before applying `X`
and the norm after applying `X` are both exactly 1. -/
theorem norms_one_before_after_X :
    euclideanNorm zero_ket = 1 ∧ euclideanNorm (X * zero_ket) = 1 := by
  constructor <;>
  · rw [euclideanNorm]
    norm_num [Fin.sum_univ_two, zero_ket, X, Matrix.mul_apply]

/-- C8: for each of the three fixed temperatures, the normalized Boltzmann
weights over the 100-point energy grid sum to exactly 1 (the real-arithmetic
model of "1.0 within floating-point tolerance"); and as `T → ∞` each grid
point's probability tends to the uniform value `1/100`. -/
theorem boltzmann_sum_one_and_uniform_limit :
    (∀ T ∈ temperatures, ∑ j, probabilities T j = 1) ∧
      ∀ j, Tendsto (fun T => probabilities T j) atTop (nhds ((100 : ℝ)⁻¹)) :=
  ⟨fun T _ => sum_probabilities T, probabilities_tendsto_uniform⟩

/-- Witness for C8: at the notebook's lowest temperature 0.5 the
probabilities sum to 1. -/
theorem boltzmann_sum_one_witness :
    (0.5 : ℝ) ∈ temperatures ∧ ∑ j, probabilities 0.5 j = 1 :=
  ⟨by simp [temperatures],
    boltzmann_sum_one_and_uniform_limit.1 0.5 (by simp [temperatures])⟩

/-- C9: when the listed backend names are distinct (as they are for the real
service), the status reporter produces exactly the two header rows followed
by one formatted row per operational backend, in the order of the listing. -/
theorem status_report_format_and_order (bs : List Backend)
    (h : (bs.map Backend.name).Nodup) :
    statusReport bs = some (headerLine1 :: headerLine2 :: bs.map backendLine) := by
  rw [statusReport, mapM_option_eq_map _ backendLine bs
    (fun b hb => by rw [find_name_nodup bs h b hb]; rfl)]
  rfl

/-- Witness for C9: the five backends of the recorded session have distinct
names and produce the expected table lines in listing order. -/
theorem status_report_format_and_order_witness :
    (sampleBackends.map Backend.name).Nodup ∧
      statusReport sampleBackends =
        some (headerLine1 :: headerLine2 :: sampleBackends.map backendLine) :=
  ⟨by decide, status_report_format_and_order sampleBackends (by decide)⟩

/-- C10: for every unit pure state and every visibility in `[0,1]`, the
matrix returned by `mixed_state` is positive semidefinite, and together
with its unit trace it is a valid density matrix. -/
theorem mixed_state_posSemidef_density (psi : Matrix (Fin 4) (Fin 1) ℂ)
    (v : ℝ) (hpsi : psi.conjTranspose * psi = 1) (h0 : 0 ≤ v) (h1 : v ≤ 1) :
    (mixed_state psi v).PosSemidef ∧ (mixed_state psi v).trace = 1 := by
  constructor
  · rw [mixed_state, maximallyMixedState_real_smul]
    exact (posSemidef_real_smul (Matrix.posSemidef_self_mul_conjTranspose psi) h0).add
      (posSemidef_real_smul (posSemidef_real_smul Matrix.PosSemidef.one (by norm_num))
        (by linarith))
  · rw [mixed_state, maximallyMixedState]
    rw [Matrix.trace_add, Matrix.trace_smul, Matrix.trace_smul, Matrix.trace_smul,
      Matrix.trace_mul_comm, hpsi, Matrix.trace_one, Matrix.trace_one]
    simp [Complex.real_smul]
    ring

/-- Witness for C10: `mixed_state ϕ 0.2` is a positive semidefinite matrix
of trace 1. -/
theorem mixed_state_posSemidef_density_witness :
    (phi.conjTranspose * phi = 1 ∧ (0:ℝ) ≤ 0.2 ∧ (0.2:ℝ) ≤ 1) ∧
      ((mixed_state phi 0.2).PosSemidef ∧ (mixed_state phi 0.2).trace = 1) :=
  ⟨⟨phi_unit, by norm_num, by norm_num⟩,
    mixed_state_posSemidef_density phi 0.2 phi_unit (by norm_num) (by norm_num)⟩
